import Mathlib

/-!
Shallow embedding of the realtime chat coordinator in `src/server.js`.

The in-memory state of the server is the `activeUsers` map
(room name → JS object mapping username → socket id), the set of
currently-open socket connections (each carrying the mutable fields
`socket.username`, `socket.currentRoom` and its socket.io room
subscriptions), and the persisted collections (users, messages) reached
through mongoose.  JS objects with string keys are modelled as
association lists that preserve insertion order (`Object.keys` order);
setting an existing key keeps its position, setting a fresh key appends.

Each socket.io handler (`joinRoom`, `chatMessage`, `typing`,
`leaveRoom`, `disconnect`) becomes a pure function from server state to
server state paired with the list of emitted outbound events, in
emission order.  The fallibility of each `await`ed mongoose call is
modelled by a Boolean parameter of the event (`true` = the promise
resolves, `false` = it rejects and control jumps to the `catch`).
-/

namespace ChatApp

/-- Association-list get, modelling JS `obj[k]` (`none` = `undefined`). -/
def assocGet {α : Type} : List (String × α) → String → Option α
  | [], _ => none
  | p :: l, k => if p.1 = k then some p.2 else assocGet l k

/-- Association-list set, modelling JS `obj[k] = v`: an existing key keeps
its position, a fresh key is appended at the end. -/
def assocSet {α : Type} : List (String × α) → String → α → List (String × α)
  | [], k, v => [(k, v)]
  | p :: l, k, v => if p.1 = k then (k, v) :: l else p :: assocSet l k v

/-- Association-list delete, modelling JS `delete obj[k]`. -/
def assocDel {α : Type} : List (String × α) → String → List (String × α)
  | [], _ => []
  | p :: l, k => if p.1 = k then assocDel l k else p :: assocDel l k

/-- The key list of an association list, modelling JS `Object.keys(obj)`. -/
def keysOf {α : Type} (l : List (String × α)) : List String := l.map (·.1)

/-- One room's entry of `activeUsers`: username → socket id. -/
abbrev Inner := List (String × Nat)

/-- The global `activeUsers` object: room name → room entry. -/
abbrev ActiveUsers := List (String × Inner)

/-- A persisted `User` document (the fields the core mutates). -/
structure UserRec where
  socketId : Option Nat
  isOnline : Bool
deriving Repr, DecidableEq

/-- A persisted `Message` document. -/
structure MsgRec where
  room : String
  username : String
  message : String
  timestamp : Nat
deriving Repr, DecidableEq

/-- One open socket connection: its id, the mutable `socket.username` and
`socket.currentRoom` fields (absent until a join), and its socket.io room
subscriptions (`socket.join` / `socket.leave`). -/
structure Socket where
  sid : Nat
  username : Option String
  currentRoom : Option String
  joined : List String
deriving Repr, DecidableEq

/-- The whole server state: `activeUsers`, the open connections, and the
persisted `users` and `messages` collections. -/
structure ServerState where
  activeUsers : ActiveUsers
  sockets : List Socket
  users : List (String × UserRec)
  messages : List MsgRec
deriving Repr, DecidableEq

/-- Server state at process start: everything empty. -/
def initialState : ServerState := ⟨[], [], [], []⟩

/-- Outbound socket.io emissions, in the order the handlers produce them.
`sid` on a room-scoped event records the sender (for `socket.to(room)`,
the except-sender broadcasts). -/
inductive OutEvent where
  | chatHistory (sid : Nat) (msgs : List MsgRec)
  | onlineUsers (room : String) (names : List String)
  | userJoined (room : String) (senderSid : Nat) (text : String)
  | message (room : String) (username text : String) (timestamp : Nat)
  | userTyping (room : String) (senderSid : Nat) (username : String) (isTyping : Bool)
  | userLeft (room : String) (senderSid : Nat) (text : String)
  | errorEvent (sid : Nat) (text : String)
deriving Repr, DecidableEq

/-- Inbound events.  The Boolean parameters model whether each `await`ed
persistence call resolves (`true`) or rejects (`false`); `ts` is the
server-assigned timestamp `new Date()` of a chat message. -/
inductive Event where
  | connect (sid : Nat)
  | joinRoom (sid : Nat) (username room : String) (upsertOk findOk : Bool)
  | chatMessage (sid : Nat) (room username text : String) (ts : Nat) (saveOk : Bool)
  | typing (sid : Nat) (room username : String) (isTyping : Bool)
  | leaveRoom (sid : Nat) (username room : String)
  | disconnect (sid : Nat) (updateOk : Bool)
deriving Repr, DecidableEq

/-- Look a socket up by id. -/
def findBySid : List Socket → Nat → Option Socket
  | [], _ => none
  | s :: l, sid => if s.sid = sid then some s else findBySid l sid

/-- Look up an open connection of the server by socket id. -/
def findSocket (st : ServerState) (sid : Nat) : Option Socket :=
  findBySid st.sockets sid

/-- Apply `f` to the socket with id `sid` (mutating a field of the
`socket` object in the handler closure). -/
def updateSocket (st : ServerState) (sid : Nat) (f : Socket → Socket) : ServerState :=
  { st with sockets := st.sockets.map (fun s => if s.sid = sid then f s else s) }

/-- `Object.keys(activeUsers[room] || \x7b\x7d)`: the presence snapshot of a
room. -/
def roomUsers (a : ActiveUsers) (room : String) : List String :=
  keysOf ((assocGet a room).getD [])

/-- Lines 123–126 of `server.js`:
`if (!activeUsers[room]) activeUsers[room] = \x7b\x7d;`
`activeUsers[room][username] = socket.id;`. -/
def presenceJoin (a : ActiveUsers) (room username : String) (sid : Nat) : ActiveUsers :=
  assocSet a room (assocSet ((assocGet a room).getD []) username sid)

/-- Lines 211–217 (and 187–193) of `server.js`: delete the username from
the room's entry if present (socket ids are non-empty strings, hence
truthy; an absent room entry reads as the empty object, making the guard
false), and delete the room's entry when it becomes empty. -/
def presenceLeave (a : ActiveUsers) (room username : String) : ActiveUsers :=
  if (assocGet ((assocGet a room).getD []) username).isSome then
    if assocDel ((assocGet a room).getD []) username = [] then assocDel a room
    else assocSet a room (assocDel ((assocGet a room).getD []) username)
  else a

/-- `User.findOneAndUpdate(\x7b username \x7d, \x7b socketId, isOnline: true \x7d,
\x7b upsert: true \x7d)`. -/
def upsertUser (us : List (String × UserRec)) (username : String) (sid : Nat) :
    List (String × UserRec) :=
  assocSet us username ⟨some sid, true⟩

/-- `User.findOneAndUpdate(\x7b username \x7d, \x7b isOnline: false, socketId: null \x7d)`
— no upsert: a no-op when the user record is absent. -/
def setOffline (us : List (String × UserRec)) (username : String) :
    List (String × UserRec) :=
  us.map (fun p => if p.1 = username then (p.1, ⟨none, false⟩) else p)

/-- Stable insertion of a message into a timestamp-ascending list. -/
def insertByTs (m : MsgRec) : List MsgRec → List MsgRec
  | [] => [m]
  | x :: xs => if m.timestamp < x.timestamp then m :: x :: xs else x :: insertByTs m xs

/-- `Message.find(\x7b room \x7d).sort(\x7b timestamp: 1 \x7d)`. -/
def findMessages (ms : List MsgRec) (room : String) : List MsgRec :=
  ((ms.filter (fun m => m.room = room)).reverse).foldl (fun acc m => insertByTs m acc) []

/-- JS whitespace test for `String.prototype.trim`: ECMA-262 WhiteSpace
(TAB, VT, FF, SP, NBSP, ZWNBSP and the Unicode Zs separators
U+1680, U+2000–U+200A, U+202F, U+205F, U+3000) together with the
LineTerminators (LF, CR, LS, PS). -/
def isWs (c : Char) : Bool :=
  c.toNat = 0x9 || c.toNat = 0xA || c.toNat = 0xB || c.toNat = 0xC || c.toNat = 0xD
  || c.toNat = 0x20 || c.toNat = 0xA0 || c.toNat = 0x1680
  || (0x2000 ≤ c.toNat && c.toNat ≤ 0x200A)
  || c.toNat = 0x2028 || c.toNat = 0x2029 || c.toNat = 0x202F || c.toNat = 0x205F
  || c.toNat = 0x3000 || c.toNat = 0xFEFF

/-- JS `message.trim()`. -/
def jsTrim (s : String) : String :=
  String.mk (((s.data.dropWhile isWs).reverse.dropWhile isWs).reverse)

/-- JS truthiness of `socket.username` / `socket.currentRoom`: an unset
field (`undefined`) and the empty string are falsy. -/
def isTruthy : Option String → Bool
  | none => false
  | some s => s ≠ ""

/-- The `joinRoom` handler, lines 109–140 of `server.js`.  The user
upsert is awaited first: when it rejects nothing has been mutated and the
catch emits `error`.  Then the socket is subscribed and bound and
`activeUsers` updated; when the history find rejects those mutations
remain and the catch emits `error`; otherwise the history, presence
snapshot and join notice are emitted. -/
def handleJoinRoom (st : ServerState) (sid : Nat) (username room : String)
    (upsertOk findOk : Bool) : ServerState × List OutEvent :=
  match findSocket st sid with
  | none => (st, [])
  | some _ =>
    if !upsertOk then
      (st, [.errorEvent sid "Failed to join room"])
    else
      let st1 : ServerState := { st with users := upsertUser st.users username sid }
      let st2 : ServerState := updateSocket st1 sid (fun s =>
        { s with username := some username, currentRoom := some room,
                 joined := if s.joined.contains room then s.joined else s.joined ++ [room] })
      let st3 : ServerState :=
        { st2 with activeUsers := presenceJoin st2.activeUsers room username sid }
      if !findOk then
        (st3, [.errorEvent sid "Failed to join room"])
      else
        (st3, [.chatHistory sid (findMessages st3.messages room),
               .onlineUsers room (roomUsers st3.activeUsers room),
               .userJoined room sid (username ++ " joined the room")])

/-- The `chatMessage` handler, lines 143–168: empty-after-trim text
returns silently; a rejected save emits `error` to the sender; otherwise
the message is appended with the server timestamp and broadcast to the
whole room. -/
def handleChatMessage (st : ServerState) (sid : Nat) (room username text : String)
    (ts : Nat) (saveOk : Bool) : ServerState × List OutEvent :=
  if jsTrim text = "" then (st, [])
  else if !saveOk then (st, [.errorEvent sid "Failed to send message"])
  else
    ({ st with messages := st.messages ++ [⟨room, username, text, ts⟩] },
     [.message room username text ts])

/-- The `typing` handler, lines 171–174: relay to the room except the
sender, unconditionally, touching no state. -/
def handleTyping (st : ServerState) (sid : Nat) (room username : String) (isTyping : Bool) :
    ServerState × List OutEvent :=
  (st, [.userTyping room sid username isTyping])

/-- The `leaveRoom` handler, lines 206–223: `socket.leave(room)`, the
conditional presence cleanup, then — unconditionally — the snapshot and
the left notice.  `socket.username` / `socket.currentRoom` are *not*
cleared. -/
def handleLeaveRoom (st : ServerState) (sid : Nat) (username room : String) :
    ServerState × List OutEvent :=
  let st1 := updateSocket st sid (fun s =>
    { s with joined := s.joined.filter (fun r => r ≠ room) })
  let st2 : ServerState :=
    { st1 with activeUsers := presenceLeave st1.activeUsers room username }
  (st2, [.onlineUsers room (roomUsers st2.activeUsers room),
         .userLeft room sid (username ++ " left the room")])

/-- The `disconnect` handler, lines 177–203.  The channel closes in every
case.  When `socket.username && socket.currentRoom` is truthy the handler
awaits the offline update *before* the presence cleanup, all inside one
`try`: when the update rejects, the `catch` only logs, so neither the
cleanup nor the broadcasts happen. -/
def handleDisconnect (st : ServerState) (sid : Nat) (updateOk : Bool) :
    ServerState × List OutEvent :=
  match findSocket st sid with
  | none => (st, [])
  | some s =>
    if isTruthy s.username && isTruthy s.currentRoom then
      match s.username, s.currentRoom with
      | some u, some r =>
        if !updateOk then
          ({ st with sockets := st.sockets.filter (fun x => x.sid ≠ sid) }, [])
        else
          let st1 : ServerState := { st with users := setOffline st.users u }
          let st2 : ServerState :=
            { st1 with activeUsers := presenceLeave st1.activeUsers r u }
          ({ st2 with sockets := st2.sockets.filter (fun x => x.sid ≠ sid) },
           [.onlineUsers r (roomUsers st2.activeUsers r),
            .userLeft r sid (u ++ " left the room")])
      | _, _ => ({ st with sockets := st.sockets.filter (fun x => x.sid ≠ sid) }, [])
    else
      ({ st with sockets := st.sockets.filter (fun x => x.sid ≠ sid) }, [])

/-- Dispatch one inbound event (`io.on('connection')` allocates the
socket; each other event runs its handler on the current state). -/
def step (st : ServerState) : Event → ServerState × List OutEvent
  | .connect sid =>
    match findSocket st sid with
    | some _ => (st, [])
    | none => ({ st with sockets := st.sockets ++ [⟨sid, none, none, []⟩] }, [])
  | .joinRoom sid u r uo fo => handleJoinRoom st sid u r uo fo
  | .chatMessage sid room u text ts ok => handleChatMessage st sid room u text ts ok
  | .typing sid room u b => handleTyping st sid room u b
  | .leaveRoom sid u r => handleLeaveRoom st sid u r
  | .disconnect sid ok => handleDisconnect st sid ok

/-- Run a sequence of inbound events, discarding emissions. -/
def runEvents (st : ServerState) : List Event → ServerState
  | [] => st
  | e :: es => runEvents (step st e).1 es

/-- One socket's side of the presence/registry correspondence: if the
socket is bound to a user and a room, that username occurs in that
room's presence snapshot. -/
def socketPresenceOk (a : ActiveUsers) (s : Socket) : Bool :=
  match s.username, s.currentRoom with
  | some u, some r => decide (u ∈ roomUsers a r)
  | _, _ => true

/-- The presence/registry correspondence: every username in any room's
presence entry is the username of some open connection bound to that
room (no ghosts), and every bound open connection's username occurs in
its room's presence snapshot (no omissions). -/
def presenceMatches (st : ServerState) : Prop :=
  (∀ p ∈ st.activeUsers, ∀ q ∈ p.2,
      ∃ s ∈ st.sockets, s.username = some q.1 ∧ s.currentRoom = some p.1)
  ∧ (∀ s ∈ st.sockets, socketPresenceOk st.activeUsers s = true)

instance (st : ServerState) : Decidable (presenceMatches st) := by
  unfold presenceMatches
  infer_instance

/-- Side conditions on one event under which the presence/registry
correspondence is preserved (the restrictions forced by the
counterexamples): connections are created fresh; joins succeed, carry
non-empty names, do not re-bind a connection to a different room or
username, and use a username no other connection holds; disconnect
persistence succeeds; `leaveRoom` does not occur (it removes the
presence entry while keeping the binding); `chatMessage` and `typing`
touch neither presence nor bindings and are unrestricted. -/
def eventOk (st : ServerState) : Event → Bool
  | .connect sid => (findSocket st sid).isNone
  | .joinRoom sid u r uo fo =>
      uo && fo && !(u = "") && !(r = "") &&
      (match findSocket st sid with
       | some s => (s.currentRoom = none || s.currentRoom = some r) &&
                   (s.username = none || s.username = some u)
       | none => false) &&
      st.sockets.all (fun s => s.sid = sid || !(s.username = some u))
  | .chatMessage _ _ _ _ _ _ => true
  | .typing _ _ _ _ => true
  | .leaveRoom _ _ _ => false
  | .disconnect _ uo => uo

/-- A whole event sequence satisfying `eventOk` stepwise. -/
def okRun (st : ServerState) : List Event → Bool
  | [] => true
  | e :: es => eventOk st e && okRun (step st e).1 es

/-- Structural health of the connection registry: distinct socket ids,
no empty-string bindings, and no username bound by two sockets. -/
def goodSockets (l : List Socket) : Prop :=
  (l.map (fun s => s.sid)).Nodup
  ∧ (∀ s ∈ l, s.username ≠ some "" ∧ s.currentRoom ≠ some "")
  ∧ (∀ s1 ∈ l, ∀ s2 ∈ l, s1.username ≠ none → s1.username = s2.username → s1.sid = s2.sid)

/-- The inductive invariant: presence/registry correspondence plus
registry health and no duplicate room keys in `activeUsers`. -/
def stateInv (st : ServerState) : Prop :=
  presenceMatches st ∧ goodSockets st.sockets ∧ (keysOf st.activeUsers).Nodup

/-! Association-list lemmas. -/

theorem assocGet_set_self {α : Type} (l : List (String × α)) (k : String) (v : α) :
    assocGet (assocSet l k v) k = some v := by
  induction l with
  | nil => simp [assocSet, assocGet]
  | cons p l ih =>
    by_cases h : p.1 = k
    · simp [assocSet, h, assocGet]
    · simp [assocSet, h, assocGet, ih]

theorem assocGet_set_ne {α : Type} (l : List (String × α)) (k : String) (v : α)
    (k' : String) (h : k' ≠ k) : assocGet (assocSet l k v) k' = assocGet l k' := by
  induction l with
  | nil => simp [assocSet, assocGet, Ne.symm h]
  | cons p l ih =>
    by_cases hp : p.1 = k
    · simp [assocSet, hp, assocGet, Ne.symm h]
    · simp only [assocSet, hp, if_false, assocGet]
      by_cases hp' : p.1 = k'
      · simp [hp']
      · simp [hp', ih]

theorem mem_keysOf {α : Type} (l : List (String × α)) (x : String) :
    x ∈ keysOf l ↔ ∃ v, (x, v) ∈ l := by
  induction l with
  | nil => simp [keysOf]
  | cons p l ih =>
    obtain ⟨a, b⟩ := p
    simp only [keysOf, List.map_cons, List.mem_cons] at ih ⊢
    constructor
    · rintro (h | h)
      · exact ⟨b, Or.inl (by rw [h])⟩
      · obtain ⟨v, hv⟩ := ih.mp h
        exact ⟨v, Or.inr hv⟩
    · rintro ⟨v, h | h⟩
      · rw [Prod.mk.injEq] at h
        exact Or.inl h.1
      · exact Or.inr (ih.mpr ⟨v, h⟩)

theorem keysOf_set_of_mem {α : Type} (l : List (String × α)) (k : String) (v : α)
    (h : k ∈ keysOf l) : keysOf (assocSet l k v) = keysOf l := by
  induction l with
  | nil => simp [keysOf] at h
  | cons p l ih =>
    obtain ⟨a, b⟩ := p
    by_cases hp : a = k
    · simp [assocSet, hp, keysOf]
    · have h' : k ∈ keysOf l := by
        simp only [keysOf, List.map_cons, List.mem_cons] at h
        rcases h with h | h
        · exact absurd h.symm hp
        · exact h
      have := ih h'
      simp only [keysOf, List.map_cons] at this ⊢
      simp [assocSet, hp, this]

theorem keysOf_set_of_not_mem {α : Type} (l : List (String × α)) (k : String) (v : α)
    (h : k ∉ keysOf l) : keysOf (assocSet l k v) = keysOf l ++ [k] := by
  induction l with
  | nil => simp [assocSet, keysOf]
  | cons p l ih =>
    obtain ⟨a, b⟩ := p
    have hp : a ≠ k := by
      intro hh
      exact h (by simp [keysOf, hh])
    have h' : k ∉ keysOf l := by
      intro hh
      refine h ?_
      simp only [keysOf, List.map_cons, List.mem_cons]
      exact Or.inr (by simpa [keysOf] using hh)
    have := ih h'
    simp only [keysOf, List.map_cons] at this ⊢
    simp [assocSet, hp, this]

theorem mem_assocSet {α : Type} (l : List (String × α)) (k : String) (v : α)
    (p : String × α) (h : p ∈ assocSet l k v) : p = (k, v) ∨ p ∈ l := by
  induction l with
  | nil => simpa [assocSet] using h
  | cons q l ih =>
    by_cases hq : q.1 = k
    · simp only [assocSet, hq, if_true, List.mem_cons] at h
      rcases h with h | h
      · exact Or.inl h
      · exact Or.inr (List.mem_cons_of_mem _ h)
    · simp only [assocSet, hq, if_false, List.mem_cons] at h
      rcases h with h | h
      · exact Or.inr (by simp [h])
      · rcases ih h with h' | h'
        · exact Or.inl h'
        · exact Or.inr (List.mem_cons_of_mem _ h')

theorem assocGet_del_self {α : Type} (l : List (String × α)) (k : String) :
    assocGet (assocDel l k) k = none := by
  induction l with
  | nil => simp [assocDel, assocGet]
  | cons p l ih =>
    by_cases hp : p.1 = k
    · simp [assocDel, hp, ih]
    · simp [assocDel, hp, assocGet, ih]

theorem assocGet_del_ne {α : Type} (l : List (String × α)) (k k' : String)
    (h : k' ≠ k) : assocGet (assocDel l k) k' = assocGet l k' := by
  induction l with
  | nil => simp [assocDel]
  | cons p l ih =>
    by_cases hp : p.1 = k
    · simp [assocDel, hp, assocGet, Ne.symm h, ih]
    · simp only [assocDel, hp, if_false, assocGet]
      by_cases hp' : p.1 = k'
      · simp [hp']
      · simp [hp', ih]

theorem mem_assocDel {α : Type} (l : List (String × α)) (k : String) (p : String × α) :
    p ∈ assocDel l k ↔ p ∈ l ∧ p.1 ≠ k := by
  induction l with
  | nil => simp [assocDel]
  | cons q l ih =>
    by_cases hq : q.1 = k
    · simp only [assocDel, hq, if_true, ih, List.mem_cons]
      constructor
      · rintro ⟨h1, h2⟩
        exact ⟨Or.inr h1, h2⟩
      · rintro ⟨h1 | h1, h2⟩
        · rw [h1] at h2
          exact absurd hq h2
        · exact ⟨h1, h2⟩
    · simp only [assocDel, hq, if_false, List.mem_cons, ih]
      constructor
      · rintro (h | ⟨h1, h2⟩)
        · exact ⟨Or.inl h, by rw [h]; exact hq⟩
        · exact ⟨Or.inr h1, h2⟩
      · rintro ⟨h1 | h1, h2⟩
        · exact Or.inl h1
        · exact Or.inr ⟨h1, h2⟩

theorem mem_keysOf_del {α : Type} (l : List (String × α)) (k x : String) :
    x ∈ keysOf (assocDel l k) ↔ x ∈ keysOf l ∧ x ≠ k := by
  simp only [mem_keysOf]
  constructor
  · rintro ⟨v, hv⟩
    have := (mem_assocDel l k (x, v)).mp hv
    exact ⟨⟨v, this.1⟩, this.2⟩
  · rintro ⟨⟨v, hv⟩, hx⟩
    exact ⟨v, (mem_assocDel l k (x, v)).mpr ⟨hv, hx⟩⟩

theorem keysOf_del_sublist {α : Type} (l : List (String × α)) (k : String) :
    List.Sublist (keysOf (assocDel l k)) (keysOf l) := by
  induction l with
  | nil => simp [assocDel, keysOf]
  | cons p l ih =>
    by_cases hp : p.1 = k
    · simp only [assocDel, hp, if_true, keysOf, List.map_cons]
      exact ih.trans (List.sublist_cons_self _ _)
    · simp only [assocDel, hp, if_false, keysOf, List.map_cons]
      exact ih.cons₂ _

theorem assocGet_isSome_iff {α : Type} (l : List (String × α)) (k : String) :
    (assocGet l k).isSome ↔ k ∈ keysOf l := by
  induction l with
  | nil => simp [assocGet, keysOf]
  | cons p l ih =>
    by_cases hp : p.1 = k
    · simp [assocGet, hp, keysOf]
    · simp only [assocGet, hp, if_false]
      rw [ih]
      simp only [keysOf, List.map_cons, List.mem_cons]
      constructor
      · exact Or.inr
      · rintro (h | h)
        · exact absurd h.symm hp
        · exact h

theorem assocGet_mem {α : Type} (l : List (String × α)) (k : String) (v : α)
    (h : assocGet l k = some v) : (k, v) ∈ l := by
  induction l with
  | nil => simp [assocGet] at h
  | cons p l ih =>
    obtain ⟨a, b⟩ := p
    by_cases hp : a = k
    · simp only [assocGet, hp, if_true, Option.some.injEq] at h
      subst hp
      subst h
      exact List.mem_cons_self _ _
    · simp only [assocGet, hp, if_false] at h
      exact List.mem_cons_of_mem _ (ih h)

/-! Presence-table lemmas. -/

theorem roomUsers_join_self (a : ActiveUsers) (r u : String) (sid : Nat) :
    u ∈ roomUsers (presenceJoin a r u sid) r := by
  unfold presenceJoin roomUsers
  rw [assocGet_set_self]
  by_cases h : u ∈ keysOf ((assocGet a r).getD [])
  · rw [Option.getD_some, keysOf_set_of_mem _ _ _ h]
    exact h
  · rw [Option.getD_some, keysOf_set_of_not_mem _ _ _ h]
    simp

theorem roomUsers_join_ne (a : ActiveUsers) (r u : String) (sid : Nat) (r' : String)
    (h : r' ≠ r) : roomUsers (presenceJoin a r u sid) r' = roomUsers a r' := by
  unfold presenceJoin roomUsers
  rw [assocGet_set_ne _ _ _ _ h]

theorem mem_roomUsers_join (a : ActiveUsers) (r u : String) (sid : Nat) (x : String) :
    x ∈ roomUsers (presenceJoin a r u sid) r ↔ x ∈ roomUsers a r ∨ x = u := by
  unfold presenceJoin roomUsers
  rw [assocGet_set_self, Option.getD_some]
  by_cases h : u ∈ keysOf ((assocGet a r).getD [])
  · rw [keysOf_set_of_mem _ _ _ h]
    constructor
    · exact Or.inl
    · rintro (hx | hx)
      · exact hx
      · rw [hx]; exact h
  · rw [keysOf_set_of_not_mem _ _ _ h]
    simp

theorem roomUsers_leave_ne (a : ActiveUsers) (r u : String) (r' : String)
    (h : r' ≠ r) : roomUsers (presenceLeave a r u) r' = roomUsers a r' := by
  unfold presenceLeave roomUsers
  by_cases hin : (assocGet ((assocGet a r).getD []) u).isSome
  · rw [if_pos hin]
    by_cases hemp : assocDel ((assocGet a r).getD []) u = []
    · rw [if_pos hemp, assocGet_del_ne _ _ _ h]
    · rw [if_neg hemp, assocGet_set_ne _ _ _ _ h]
  · rw [if_neg hin]

theorem not_mem_roomUsers_leave (a : ActiveUsers) (r u : String) :
    u ∉ roomUsers (presenceLeave a r u) r := by
  unfold presenceLeave roomUsers
  by_cases hin : (assocGet ((assocGet a r).getD []) u).isSome
  · rw [if_pos hin]
    by_cases hemp : assocDel ((assocGet a r).getD []) u = []
    · rw [if_pos hemp, assocGet_del_self]
      simp [keysOf]
    · rw [if_neg hemp, assocGet_set_self, Option.getD_some]
      intro hmem
      exact ((mem_keysOf_del _ u u).mp hmem).2 rfl
  · rw [if_neg hin]
    intro hmem
    rw [← assocGet_isSome_iff] at hmem
    exact absurd hmem hin

theorem mem_roomUsers_leave (a : ActiveUsers) (r u x : String) (hx : x ≠ u) :
    x ∈ roomUsers (presenceLeave a r u) r ↔ x ∈ roomUsers a r := by
  unfold presenceLeave roomUsers
  by_cases hin : (assocGet ((assocGet a r).getD []) u).isSome
  · rw [if_pos hin]
    by_cases hemp : assocDel ((assocGet a r).getD []) u = []
    · rw [if_pos hemp, assocGet_del_self]
      simp only [Option.getD_none]
      constructor
      · intro h
        exact absurd h (by simp [keysOf])
      · intro h
        have hmem : x ∈ keysOf (assocDel ((assocGet a r).getD []) u) :=
          (mem_keysOf_del _ u x).mpr ⟨h, hx⟩
        rw [hemp] at hmem
        exact absurd hmem (by simp [keysOf])
    · rw [if_neg hemp, assocGet_set_self]
      simp only [Option.getD_some]
      rw [mem_keysOf_del]
      constructor
      · exact And.left
      · intro h
        exact ⟨h, hx⟩
  · rw [if_neg hin]

theorem presenceLeave_of_not_mem (a : ActiveUsers) (r u : String)
    (h : u ∉ roomUsers a r) : presenceLeave a r u = a := by
  unfold presenceLeave
  have hin : ¬ (assocGet ((assocGet a r).getD []) u).isSome = true := by
    intro hs
    exact h ((assocGet_isSome_iff _ u).mp hs)
  rw [if_neg hin]

/-- Pair-level view of `presenceJoin`: an entry of the result is the
updated entry for `r` (whose members come from the old entry plus the
joining user) or an untouched entry of `a`. -/
theorem mem_presenceJoin (a : ActiveUsers) (r u : String) (sid : Nat)
    (p : String × Inner) (h : p ∈ presenceJoin a r u sid) :
    (p.1 = r ∧ ∀ q ∈ p.2, q = (u, sid) ∨ q ∈ ((assocGet a r).getD [])) ∨ p ∈ a := by
  unfold presenceJoin at h
  rcases mem_assocSet _ _ _ _ h with h' | h'
  · left
    rw [h']
    refine ⟨rfl, ?_⟩
    intro q hq
    exact mem_assocSet _ _ _ _ hq
  · exact Or.inr h'

/-- Pair-level view of `presenceLeave`: an entry of the result is an
untouched entry of `a`, or the shrunk entry for `r` whose members are
old members of `r`'s entry other than the leaving user. -/
theorem mem_presenceLeave (a : ActiveUsers) (r u : String)
    (p : String × Inner) (h : p ∈ presenceLeave a r u) :
    p ∈ a ∨ (p.1 = r ∧ ∀ q ∈ p.2, q ∈ ((assocGet a r).getD []) ∧ q.1 ≠ u) := by
  unfold presenceLeave at h
  by_cases hin : (assocGet ((assocGet a r).getD []) u).isSome
  · rw [if_pos hin] at h
    by_cases hemp : assocDel ((assocGet a r).getD []) u = []
    · rw [if_pos hemp] at h
      exact Or.inl ((mem_assocDel _ _ _).mp h).1
    · rw [if_neg hemp] at h
      rcases mem_assocSet _ _ _ _ h with h' | h'
      · right
        rw [h']
        exact ⟨rfl, fun q hq => (mem_assocDel _ _ _).mp hq⟩
      · exact Or.inl h'
  · rw [if_neg hin] at h
    exact Or.inl h


/-! Socket-list lemmas. -/

theorem findBySid_some (l : List Socket) (sid : Nat) (s : Socket)
    (h : findBySid l sid = some s) : s ∈ l ∧ s.sid = sid := by
  induction l with
  | nil => simp [findBySid] at h
  | cons x l ih =>
    by_cases hx : x.sid = sid
    · simp only [findBySid, hx, if_true, Option.some.injEq] at h
      subst h
      exact ⟨List.mem_cons_self _ _, hx⟩
    · simp only [findBySid, hx, if_false] at h
      obtain ⟨h1, h2⟩ := ih h
      exact ⟨List.mem_cons_of_mem _ h1, h2⟩

theorem findBySid_none (l : List Socket) (sid : Nat)
    (h : findBySid l sid = none) : ∀ s ∈ l, s.sid ≠ sid := by
  induction l with
  | nil => simp
  | cons x l ih =>
    by_cases hx : x.sid = sid
    · simp [findBySid, hx] at h
    · simp only [findBySid, hx, if_false] at h
      intro s hs
      rw [List.mem_cons] at hs
      rcases hs with hs | hs
      · rw [hs]; exact hx
      · exact ih h s hs

/-- Two sockets of a list with no duplicate ids that share an id are the
same socket. -/
theorem eq_of_mem_same_sid (l : List Socket) (h : (l.map (fun s => s.sid)).Nodup)
    (s1 s2 : Socket) (h1 : s1 ∈ l) (h2 : s2 ∈ l) (hsid : s1.sid = s2.sid) : s1 = s2 := by
  induction l with
  | nil => simp at h1
  | cons x l ih =>
    simp only [List.map_cons, List.nodup_cons] at h
    rw [List.mem_cons] at h1 h2
    rcases h1 with h1 | h1 <;> rcases h2 with h2 | h2
    · rw [h1, h2]
    · exfalso
      refine h.1 ?_
      rw [← h1, hsid]
      exact List.mem_map_of_mem _ h2
    · exfalso
      refine h.1 ?_
      rw [← h2, ← hsid]
      exact List.mem_map_of_mem _ h1
    · exact ih h.2 h1 h2

/-- Mapping an id-preserving function over the socket list commutes
with looking a socket up by id. -/
theorem findBySid_map (l : List Socket) (sid : Nat) (F : Socket → Socket)
    (hF : ∀ x, (F x).sid = x.sid) :
    findBySid (l.map F) sid = (findBySid l sid).map F := by
  induction l with
  | nil => simp [findBySid]
  | cons x l ih =>
    by_cases hx : x.sid = sid
    · have : (F x).sid = sid := by rw [hF]; exact hx
      simp only [List.map_cons, findBySid, hx, this, if_true]
      rfl
    · have : ¬ (F x).sid = sid := by rw [hF]; exact hx
      simp only [List.map_cons, findBySid, hx, this, if_false, ih]

/-- Mapping an id-preserving function over the socket list keeps the id
list. -/
theorem map_sid_of_preserve (l : List Socket) (F : Socket → Socket)
    (hF : ∀ x, (F x).sid = x.sid) :
    (l.map F).map (fun s => s.sid) = l.map (fun s => s.sid) := by
  induction l with
  | nil => simp
  | cons x l ih =>
    simp only [List.map_cons, hF, ih]

/-- C9: the `typing` handler, from any connection in any state, changes
no state at all (presence table, bindings, persisted records) and emits
exactly one `userTyping` event to the room except the sender; it never
fails and never emits an error event. -/
theorem C9_typing_frame (st : ServerState) (sid : Nat) (room username : String)
    (isTyping : Bool) :
    step st (.typing sid room username isTyping)
      = (st, [.userTyping room sid username isTyping]) := rfl

/-- C8: a `chatMessage` whose text trims to the empty string is silently
dropped: the state (in particular the persisted messages) is unchanged
and nothing is emitted, regardless of the persistence outcome. -/
theorem C8_whitespace_dropped (st : ServerState) (sid : Nat) (room username text : String)
    (ts : Nat) (saveOk : Bool) (h : jsTrim text = "") :
    step st (.chatMessage sid room username text ts saveOk) = (st, []) := by
  simp [step, handleChatMessage, h]

/-- Witness for C8 at the whitespace-only text of the spec's example. -/
theorem C8_whitespace_dropped_witness :
    step initialState (.chatMessage 0 "general" "alice" "   " 5 true) = (initialState, []) :=
  C8_whitespace_dropped initialState 0 "general" "alice" "   " 5 true (by decide)

/-- C7: a `chatMessage` with non-empty trimmed text: when the save
rejects, the only emission is an `error` event to the originating
connection and nothing is persisted or broadcast; when it resolves, the
message is appended to the persisted collection and broadcast (username,
text, server timestamp) to the whole room. -/
theorem C7_chat_persistence (st : ServerState) (sid : Nat) (room username text : String)
    (ts : Nat) (h : jsTrim text ≠ "") :
    step st (.chatMessage sid room username text ts false)
      = (st, [.errorEvent sid "Failed to send message"])
    ∧ step st (.chatMessage sid room username text ts true)
      = ({ st with messages := st.messages ++ [⟨room, username, text, ts⟩] },
         [.message room username text ts]) := by
  constructor <;> simp [step, handleChatMessage, h]

/-- Witness for C7 at a concrete message. -/
theorem C7_chat_persistence_witness :
    step initialState (.chatMessage 0 "general" "alice" "hi" 5 false)
      = (initialState, [.errorEvent 0 "Failed to send message"])
    ∧ step initialState (.chatMessage 0 "general" "alice" "hi" 5 true)
      = ({ initialState with messages := [⟨"general", "alice", "hi", 5⟩] },
         [.message "general" "alice" "hi" 5]) :=
  C7_chat_persistence initialState 0 "general" "alice" "hi" 5 (by decide)

/-- C1 counterexample: after `connect 0`, `joinRoom "u" "A"`,
`joinRoom "u" "B"` — a legal sequence of the claimed events — room `"A"`
still lists `"u"` although the only open connection is bound to `"B"`,
so the presence snapshot does not equal the set of usernames of open
connections bound to `"A"`. -/
theorem C1_counterexample :
    ¬ presenceMatches (runEvents initialState
      [.connect 0, .joinRoom 0 "u" "A" true true, .joinRoom 0 "u" "B" true true]) := by
  decide

/-- C2 counterexample: a `joinRoom` whose user upsert succeeds but whose
message-history find fails emits the error to the originating connection,
yet the room's presence set has gained the username: the in-memory state
is *not* left unchanged by the failed join. -/
theorem C2_counterexample :
    (step (runEvents initialState [.connect 0]) (.joinRoom 0 "u" "r" true false)).2
        = [.errorEvent 0 "Failed to join room"]
    ∧ roomUsers (runEvents initialState [.connect 0]).activeUsers "r" = []
    ∧ roomUsers
        (step (runEvents initialState [.connect 0]) (.joinRoom 0 "u" "r" true false)).1.activeUsers
        "r" = ["u"] := by
  decide

/-- C3: the code's behaviour at the failing input.  Socket 0 joined room
`"r"` as `"u"`; on disconnect the offline persistence write fails.  The
catch only logs: the username stays in the room's presence entry (a
ghost), no `onlineUsers` or `userLeft` is emitted, and the connection is
closed. -/
theorem C3_ghost_on_failed_disconnect :
    roomUsers (step (runEvents initialState
        [.connect 0, .joinRoom 0 "u" "r" true true]) (.disconnect 0 false)).1.activeUsers "r"
      = ["u"]
    ∧ (step (runEvents initialState
        [.connect 0, .joinRoom 0 "u" "r" true true]) (.disconnect 0 false)).2 = []
    ∧ findSocket (step (runEvents initialState
        [.connect 0, .joinRoom 0 "u" "r" true true]) (.disconnect 0 false)).1 0 = none := by
  decide

/-- C4 counterexample: one connection joins `"A"` and then `"B"` with the
same username; the username is present in both rooms' presence sets, not
only in `"B"`. -/
theorem C4_counterexample :
    "u" ∈ roomUsers (runEvents initialState
        [.connect 0, .joinRoom 0 "u" "A" true true, .joinRoom 0 "u" "B" true true]).activeUsers "A"
    ∧ "u" ∈ roomUsers (runEvents initialState
        [.connect 0, .joinRoom 0 "u" "A" true true, .joinRoom 0 "u" "B" true true]).activeUsers "B" := by
  decide

/-- C5 counterexample: after an explicit `leaveRoom` the connection's
`currentRoom` binding still holds the left room, and the following
disconnect emits the `onlineUsers` snapshot and a `userLeft` notice for
that room — not the claimed silence. -/
theorem C5_counterexample :
    (findSocket (runEvents initialState
        [.connect 0, .joinRoom 0 "u" "r" true true, .leaveRoom 0 "u" "r"]) 0).map
        (fun s => s.currentRoom) = some (some "r")
    ∧ (step (runEvents initialState
        [.connect 0, .joinRoom 0 "u" "r" true true, .leaveRoom 0 "u" "r"])
        (.disconnect 0 true)).2
      = [.onlineUsers "r" [], .userLeft "r" 0 "u left the room"] := by
  decide

/-- C6 counterexample: a `leaveRoom` for a username not present in the
room's presence set (here: a connection that never joined anything)
still emits the `onlineUsers` snapshot and a `userLeft` notice — it is
not broadcast-free. -/
theorem C6_counterexample :
    (step (runEvents initialState [.connect 0]) (.leaveRoom 0 "u" "r")).2
      = [.onlineUsers "r" [], .userLeft "r" 0 "u left the room"] := by
  decide

theorem roomUsers_join_of_mem (a : ActiveUsers) (r u : String) (sid : Nat)
    (h : u ∈ roomUsers a r) :
    roomUsers (presenceJoin a r u sid) r = roomUsers a r := by
  unfold roomUsers at h ⊢
  unfold presenceJoin
  rw [assocGet_set_self, Option.getD_some, keysOf_set_of_mem _ _ _ h]

theorem nodup_keysOf_set {α : Type} (l : List (String × α)) (k : String) (v : α)
    (h : (keysOf l).Nodup) : (keysOf (assocSet l k v)).Nodup := by
  by_cases hm : k ∈ keysOf l
  · rw [keysOf_set_of_mem _ _ _ hm]
    exact h
  · rw [keysOf_set_of_not_mem _ _ _ hm]
    simp only [List.nodup_append, List.nodup_cons, List.nodup_nil]
    exact ⟨h, ⟨by simp, trivial⟩, by
      intro x hx hx1
      simp only [List.mem_singleton] at hx1
      rw [hx1] at hx
      exact hm hx⟩

/-- The inner username lists of `activeUsers` have no duplicate keys:
preserved by `presenceJoin`. -/
theorem innerNodup_presenceJoin (a : ActiveUsers) (r u : String) (sid : Nat)
    (h : ∀ p ∈ a, (keysOf p.2).Nodup) :
    ∀ p ∈ presenceJoin a r u sid, (keysOf p.2).Nodup := by
  intro p hp
  unfold presenceJoin at hp
  rcases mem_assocSet _ _ _ _ hp with h' | h'
  · rw [h']
    refine nodup_keysOf_set _ _ _ ?_
    cases hget : assocGet a r with
    | none => simp [keysOf]
    | some inner =>
      simp only [hget, Option.getD_some]
      exact h (r, inner) (assocGet_mem _ _ _ hget)
  · exact h p h'

/-- The inner username lists of `activeUsers` have no duplicate keys:
preserved by `presenceLeave`. -/
theorem innerNodup_presenceLeave (a : ActiveUsers) (r u : String)
    (h : ∀ p ∈ a, (keysOf p.2).Nodup) :
    ∀ p ∈ presenceLeave a r u, (keysOf p.2).Nodup := by
  intro p hp
  unfold presenceLeave at hp
  by_cases hin : (assocGet ((assocGet a r).getD []) u).isSome
  · rw [if_pos hin] at hp
    by_cases hemp : assocDel ((assocGet a r).getD []) u = []
    · rw [if_pos hemp] at hp
      exact h p ((mem_assocDel _ _ _).mp hp).1
    · rw [if_neg hemp] at hp
      rcases mem_assocSet _ _ _ _ hp with h' | h'
      · rw [h']
        refine List.Nodup.sublist (keysOf_del_sublist _ _) ?_
        cases hget : assocGet a r with
        | none => simp [keysOf]
        | some inner =>
          simp only [hget, Option.getD_some]
          exact h (r, inner) (assocGet_mem _ _ _ hget)
      · exact h p h'
  · rw [if_neg hin] at hp
    exact h p hp

/-- The inner username lists of `activeUsers` have no duplicate keys:
preserved by every inbound event. -/
theorem innerNodup_step (st : ServerState) (e : Event)
    (h : ∀ p ∈ st.activeUsers, (keysOf p.2).Nodup) :
    ∀ p ∈ (step st e).1.activeUsers, (keysOf p.2).Nodup := by
  cases e with
  | connect sid =>
    cases hfind : findSocket st sid with
    | some s =>
      simp only [step, hfind]
      exact h
    | none =>
      simp only [step, hfind]
      exact h
  | joinRoom sid u r uo fo =>
    cases hfind : findSocket st sid with
    | none =>
      simp only [step, handleJoinRoom, hfind]
      exact h
    | some s =>
      cases uo with
      | false =>
        simp only [step, handleJoinRoom, hfind, Bool.not_false, if_true]
        exact h
      | true =>
        cases fo with
        | false =>
          simp only [step, handleJoinRoom, hfind, Bool.not_true, Bool.false_eq_true,
            if_false, Bool.not_false, if_true]
          exact innerNodup_presenceJoin _ _ _ _ h
        | true =>
          simp only [step, handleJoinRoom, hfind, Bool.not_true, Bool.false_eq_true, if_false]
          exact innerNodup_presenceJoin _ _ _ _ h
  | chatMessage sid room u text ts ok =>
    by_cases htr : jsTrim text = ""
    · simp only [step, handleChatMessage, htr, if_true]
      exact h
    · cases ok with
      | false =>
        simp only [step, handleChatMessage, htr, if_neg htr, Bool.not_false, if_true]
        exact h
      | true =>
        simp only [step, handleChatMessage, if_neg htr, Bool.not_true, Bool.false_eq_true,
          if_false]
        exact h
  | typing sid room u b =>
    simp only [step, handleTyping]
    exact h
  | leaveRoom sid u r =>
    simp only [step, handleLeaveRoom, updateSocket]
    exact innerNodup_presenceLeave _ _ _ h
  | disconnect sid ok =>
    cases hfind : findSocket st sid with
    | none =>
      simp only [step, handleDisconnect, hfind]
      exact h
    | some s =>
      simp only [step, handleDisconnect, hfind]
      by_cases htr : (isTruthy s.username && isTruthy s.currentRoom) = true
      · rw [if_pos htr]
        cases husr : s.username with
        | none => simp [husr, isTruthy] at htr
        | some u =>
          cases hroom : s.currentRoom with
          | none => simp [hroom, isTruthy] at htr
          | some r =>
            cases ok with
            | false =>
              simp only [Bool.not_false, if_true]
              exact h
            | true =>
              simp only [Bool.not_true, Bool.false_eq_true, if_false]
              exact innerNodup_presenceLeave _ _ _ h
      · rw [if_neg htr]
        exact h

/-- The inner username lists of `activeUsers` have no duplicate keys in
every state reachable from the initial state. -/
theorem innerNodup_run (st : ServerState)
    (h : ∀ p ∈ st.activeUsers, (keysOf p.2).Nodup) :
    ∀ evs : List Event, ∀ p ∈ (runEvents st evs).activeUsers, (keysOf p.2).Nodup := by
  intro evs
  induction evs generalizing st with
  | nil => exact h
  | cons e es ih => exact ih _ (innerNodup_step st e h)

/-- A successful upsert during `joinRoom` updates `activeUsers` to
`presenceJoin`, whatever the history find does. -/
theorem joinRoom_activeUsers (st : ServerState) (sid : Nat) (u r : String) (fo : Bool)
    (s : Socket) (hs : findSocket st sid = some s) :
    ((step st (.joinRoom sid u r true fo)).1).activeUsers
      = presenceJoin st.activeUsers r u sid := by
  cases fo <;> simp [step, handleJoinRoom, hs, updateSocket]

/-- C2 amended: when the user upsert rejects, the error goes to the
originating connection only and the state is untouched; but when the
upsert resolves and the message-history find rejects, the error is again
sent to the originating connection only while the in-memory mutation is
the same as in a fully successful join — the binding and presence
updates performed before the find are *not* rolled back, and the
username is in the room's presence set. -/
theorem C2_amended (st : ServerState) (sid : Nat) (u r : String) (s : Socket)
    (hs : findSocket st sid = some s) :
    step st (.joinRoom sid u r false true) = (st, [.errorEvent sid "Failed to join room"])
    ∧ step st (.joinRoom sid u r false false) = (st, [.errorEvent sid "Failed to join room"])
    ∧ (step st (.joinRoom sid u r true false)).2 = [.errorEvent sid "Failed to join room"]
    ∧ (step st (.joinRoom sid u r true false)).1 = (step st (.joinRoom sid u r true true)).1
    ∧ u ∈ roomUsers ((step st (.joinRoom sid u r true false)).1).activeUsers r := by
  refine ⟨?_, ?_, ?_, ?_, ?_⟩
  · simp [step, handleJoinRoom, hs]
  · simp [step, handleJoinRoom, hs]
  · simp [step, handleJoinRoom, hs]
  · simp [step, handleJoinRoom, hs]
  · rw [joinRoom_activeUsers st sid u r false s hs]
    exact roomUsers_join_self _ _ _ _

/-- Witness for C2 amended: a freshly connected socket 0 joining room
"r" as "u". -/
theorem C2_amended_witness :
    step (runEvents initialState [.connect 0]) (.joinRoom 0 "u" "r" false true)
      = (runEvents initialState [.connect 0], [.errorEvent 0 "Failed to join room"])
    ∧ step (runEvents initialState [.connect 0]) (.joinRoom 0 "u" "r" false false)
      = (runEvents initialState [.connect 0], [.errorEvent 0 "Failed to join room"])
    ∧ (step (runEvents initialState [.connect 0]) (.joinRoom 0 "u" "r" true false)).2
      = [.errorEvent 0 "Failed to join room"]
    ∧ (step (runEvents initialState [.connect 0]) (.joinRoom 0 "u" "r" true false)).1
      = (step (runEvents initialState [.connect 0]) (.joinRoom 0 "u" "r" true true)).1
    ∧ "u" ∈ roomUsers
        ((step (runEvents initialState [.connect 0]) (.joinRoom 0 "u" "r" true false)).1).activeUsers
        "r" :=
  C2_amended (runEvents initialState [.connect 0]) 0 "u" "r" ⟨0, none, none, []⟩ (by decide)

/-- C4 amended: `joinRoom` adds the username to the target room's
presence set but leaves every other room's presence snapshot unchanged —
joining a new room does not remove the username from a previously joined
room, so after joining A and then B the username is present in both
sets. -/
theorem C4_amended (st : ServerState) (sid : Nat) (u r : String) (fo : Bool)
    (r' : String) (s : Socket) (h : r' ≠ r) (hs : findSocket st sid = some s) :
    roomUsers ((step st (.joinRoom sid u r true fo)).1).activeUsers r'
      = roomUsers st.activeUsers r'
    ∧ u ∈ roomUsers ((step st (.joinRoom sid u r true fo)).1).activeUsers r := by
  rw [joinRoom_activeUsers st sid u r fo s hs]
  exact ⟨roomUsers_join_ne _ _ _ _ _ h, roomUsers_join_self _ _ _ _⟩

/-- Witness for C4 amended: socket 0, already in room "A" as "u", joins
"B"; room "A"'s snapshot is untouched and "u" is in "B"'s snapshot. -/
theorem C4_amended_witness :
    roomUsers ((step (runEvents initialState [.connect 0, .joinRoom 0 "u" "A" true true])
        (.joinRoom 0 "u" "B" true true)).1).activeUsers "A"
      = roomUsers (runEvents initialState
          [.connect 0, .joinRoom 0 "u" "A" true true]).activeUsers "A"
    ∧ "u" ∈ roomUsers ((step (runEvents initialState
        [.connect 0, .joinRoom 0 "u" "A" true true])
        (.joinRoom 0 "u" "B" true true)).1).activeUsers "B" :=
  C4_amended (runEvents initialState [.connect 0, .joinRoom 0 "u" "A" true true])
    0 "u" "B" true "A" ⟨0, some "u", some "A", ["A"]⟩ (by decide) (by decide)

/-- C5 amended: `leaveRoom` removes the username from the room's
presence set and broadcasts, but does *not* clear the connection's
username/room binding; a disconnect that follows the explicit
`leaveRoom` therefore still enters the room-cleanup branch, performs the
offline persistence write and emits the `onlineUsers` snapshot and a
`userLeft` notice for the previously-left room (the presence set itself
is unchanged by it, the username being already absent). -/
theorem C5_amended (st : ServerState) (sid : Nat) (u r : String) (s : Socket)
    (hs : findSocket st sid = some s) (hu : s.username = some u)
    (hr : s.currentRoom = some r) (hu0 : u ≠ "") (hr0 : r ≠ "") :
    (findSocket (step st (.leaveRoom sid u r)).1 sid).map
        (fun x => (x.username, x.currentRoom)) = some (some u, some r)
    ∧ (step (step st (.leaveRoom sid u r)).1 (.disconnect sid true)).2 =
        [.onlineUsers r (roomUsers (step st (.leaveRoom sid u r)).1.activeUsers r),
         .userLeft r sid (u ++ " left the room")] := by
  have hs' : findBySid st.sockets sid = some s := hs
  have hsid : s.sid = sid := (findBySid_some _ _ _ hs').2
  have hunfold : (handleLeaveRoom st sid u r).1.sockets
      = st.sockets.map (fun x => if x.sid = sid then
          { x with joined := x.joined.filter (fun y => y ≠ r) } else x) := rfl
  have hfind : findSocket (handleLeaveRoom st sid u r).1 sid
      = some { s with joined := s.joined.filter (fun x => x ≠ r) } := by
    unfold findSocket
    rw [hunfold, findBySid_map _ _ _ (fun x => by by_cases hx : x.sid = sid <;> simp [hx])]
    rw [hs']
    simp [hsid]
  have hleave : (handleLeaveRoom st sid u r).1.activeUsers
      = presenceLeave st.activeUsers r u := rfl
  have hnm : u ∉ roomUsers (handleLeaveRoom st sid u r).1.activeUsers r := by
    rw [hleave]
    exact not_mem_roomUsers_leave _ _ _
  have hcollapse : presenceLeave (handleLeaveRoom st sid u r).1.activeUsers r u
      = (handleLeaveRoom st sid u r).1.activeUsers :=
    presenceLeave_of_not_mem _ _ _ hnm
  constructor
  · show (findSocket (handleLeaveRoom st sid u r).1 sid).map
        (fun x => (x.username, x.currentRoom)) = some (some u, some r)
    rw [hfind]
    simp [hu, hr]
  · show (handleDisconnect (handleLeaveRoom st sid u r).1 sid true).2
      = [.onlineUsers r (roomUsers (handleLeaveRoom st sid u r).1.activeUsers r),
         .userLeft r sid (u ++ " left the room")]
    simp only [handleDisconnect]
    rw [hfind]
    simp [hu, hr, isTruthy, hu0, hr0, hcollapse]

/-- Witness for C5 amended: socket 0 joined "r" as "u" and then left it
explicitly. -/
theorem C5_amended_witness :
    (findSocket (step (runEvents initialState [.connect 0, .joinRoom 0 "u" "r" true true])
        (.leaveRoom 0 "u" "r")).1 0).map
        (fun x => (x.username, x.currentRoom)) = some (some "u", some "r")
    ∧ (step (step (runEvents initialState [.connect 0, .joinRoom 0 "u" "r" true true])
        (.leaveRoom 0 "u" "r")).1 (.disconnect 0 true)).2 =
        [.onlineUsers "r" (roomUsers (step (runEvents initialState
            [.connect 0, .joinRoom 0 "u" "r" true true])
            (.leaveRoom 0 "u" "r")).1.activeUsers "r"),
         .userLeft "r" 0 ("u" ++ " left the room")] :=
  C5_amended (runEvents initialState [.connect 0, .joinRoom 0 "u" "r" true true])
    0 "u" "r" ⟨0, some "u", some "r", ["r"]⟩ (by decide) rfl rfl (by decide) (by decide)

/-- C6 amended: a `leaveRoom` or disconnect naming a username absent
from the target room's presence set leaves the presence table unchanged
and raises no error event, but it is not a complete no-op: `leaveRoom`
still emits the `onlineUsers` snapshot and a `userLeft` notice, and a
disconnect of a room-bound connection still performs the offline
persistence write and emits both broadcasts. -/
theorem C6_amended (st : ServerState) (sid : Nat) (u r : String) (s : Socket)
    (hnm : u ∉ roomUsers st.activeUsers r)
    (hs : findSocket st sid = some s) (hu : s.username = some u)
    (hr : s.currentRoom = some r) (hu0 : u ≠ "") (hr0 : r ≠ "") :
    (step st (.leaveRoom sid u r)).1.activeUsers = st.activeUsers
    ∧ (step st (.leaveRoom sid u r)).2 =
        [.onlineUsers r (roomUsers st.activeUsers r),
         .userLeft r sid (u ++ " left the room")]
    ∧ (step st (.disconnect sid true)).1.activeUsers = st.activeUsers
    ∧ (step st (.disconnect sid true)).2 =
        [.onlineUsers r (roomUsers st.activeUsers r),
         .userLeft r sid (u ++ " left the room")] := by
  have hcollapse : presenceLeave st.activeUsers r u = st.activeUsers :=
    presenceLeave_of_not_mem _ _ _ hnm
  refine ⟨?_, ?_, ?_, ?_⟩
  · simp [step, handleLeaveRoom, updateSocket, hcollapse]
  · simp [step, handleLeaveRoom, updateSocket, hcollapse]
  · simp only [step, handleDisconnect]
    rw [show findSocket st sid = some s from hs]
    simp [hu, hr, isTruthy, hu0, hr0, hcollapse]
  · simp only [step, handleDisconnect]
    rw [show findSocket st sid = some s from hs]
    simp [hu, hr, isTruthy, hu0, hr0, hcollapse]

/-- Witness for C6 amended: socket 0 joined "r" as "u", left explicitly
(so "u" is absent from "r"'s presence set while the binding remains),
and then the duplicate cleanup paths run. -/
theorem C6_amended_witness :
    (step (runEvents initialState
        [.connect 0, .joinRoom 0 "u" "r" true true, .leaveRoom 0 "u" "r"])
        (.leaveRoom 0 "u" "r")).1.activeUsers
      = (runEvents initialState
          [.connect 0, .joinRoom 0 "u" "r" true true, .leaveRoom 0 "u" "r"]).activeUsers
    ∧ (step (runEvents initialState
        [.connect 0, .joinRoom 0 "u" "r" true true, .leaveRoom 0 "u" "r"])
        (.leaveRoom 0 "u" "r")).2 =
        [.onlineUsers "r" (roomUsers (runEvents initialState
            [.connect 0, .joinRoom 0 "u" "r" true true, .leaveRoom 0 "u" "r"]).activeUsers "r"),
         .userLeft "r" 0 ("u" ++ " left the room")]
    ∧ (step (runEvents initialState
        [.connect 0, .joinRoom 0 "u" "r" true true, .leaveRoom 0 "u" "r"])
        (.disconnect 0 true)).1.activeUsers
      = (runEvents initialState
          [.connect 0, .joinRoom 0 "u" "r" true true, .leaveRoom 0 "u" "r"]).activeUsers
    ∧ (step (runEvents initialState
        [.connect 0, .joinRoom 0 "u" "r" true true, .leaveRoom 0 "u" "r"])
        (.disconnect 0 true)).2 =
        [.onlineUsers "r" (roomUsers (runEvents initialState
            [.connect 0, .joinRoom 0 "u" "r" true true, .leaveRoom 0 "u" "r"]).activeUsers "r"),
         .userLeft "r" 0 ("u" ++ " left the room")] :=
  C6_amended (runEvents initialState
      [.connect 0, .joinRoom 0 "u" "r" true true, .leaveRoom 0 "u" "r"])
    0 "u" "r" ⟨0, some "u", some "r", []⟩ (by decide) (by decide) rfl rfl
    (by decide) (by decide)

/-- On a list with no duplicate keys, a member of `assocSet l k v` is
the new pair or an old pair with a different key. -/
theorem mem_assocSet_nodup {α : Type} (l : List (String × α)) (k : String) (v : α)
    (hn : (keysOf l).Nodup) (p : String × α) (h : p ∈ assocSet l k v) :
    p = (k, v) ∨ (p ∈ l ∧ p.1 ≠ k) := by
  induction l with
  | nil => simpa [assocSet] using h
  | cons q l ih =>
    simp only [keysOf, List.map_cons, List.nodup_cons] at hn
    by_cases hq : q.1 = k
    · simp only [assocSet, hq, if_true, List.mem_cons] at h
      rcases h with h | h
      · exact Or.inl h
      · right
        refine ⟨List.mem_cons_of_mem _ h, ?_⟩
        intro hk
        refine hn.1 ?_
        rw [hq, ← hk]
        exact List.mem_map_of_mem _ h
    · simp only [assocSet, hq, if_false, List.mem_cons] at h
      rcases h with h | h
      · right
        rw [h]
        exact ⟨List.mem_cons_self _ _, hq⟩
      · rcases ih hn.2 h with h' | h'
        · exact Or.inl h'
        · exact Or.inr ⟨List.mem_cons_of_mem _ h'.1, h'.2⟩

/-- Pair-level view of `presenceLeave` over a duplicate-free room list:
either the whole operation was a no-op because the username was absent,
or an entry is an untouched entry of another room, or it is the shrunk
entry for `r`. -/
theorem mem_presenceLeave_nodup (a : ActiveUsers) (r u : String)
    (hn : (keysOf a).Nodup) (p : String × Inner) (h : p ∈ presenceLeave a r u) :
    (presenceLeave a r u = a ∧ p ∈ a ∧ u ∉ roomUsers a r)
    ∨ (p ∈ a ∧ p.1 ≠ r)
    ∨ (p.1 = r ∧ ∀ q ∈ p.2, q ∈ ((assocGet a r).getD []) ∧ q.1 ≠ u) := by
  unfold presenceLeave at h ⊢
  by_cases hin : (assocGet ((assocGet a r).getD []) u).isSome
  · rw [if_pos hin] at h
    by_cases hemp : assocDel ((assocGet a r).getD []) u = []
    · rw [if_pos hemp] at h
      rw [if_pos hin, if_pos hemp]
      have := (mem_assocDel _ _ _).mp h
      exact Or.inr (Or.inl this)
    · rw [if_neg hemp] at h
      rw [if_pos hin, if_neg hemp]
      rcases mem_assocSet_nodup _ _ _ hn _ h with h' | h'
      · right
        right
        rw [h']
        exact ⟨rfl, fun q hq => (mem_assocDel _ _ _).mp hq⟩
      · exact Or.inr (Or.inl h')
  · rw [if_neg hin] at h
    rw [if_neg hin]
    left
    refine ⟨rfl, h, ?_⟩
    intro hmem
    unfold roomUsers at hmem
    rw [← assocGet_isSome_iff] at hmem
    exact absurd hmem hin

/-- `presenceJoin` keeps the room-key list duplicate-free. -/
theorem outerNodup_presenceJoin (a : ActiveUsers) (r u : String) (sid : Nat)
    (h : (keysOf a).Nodup) : (keysOf (presenceJoin a r u sid)).Nodup :=
  nodup_keysOf_set _ _ _ h

/-- `presenceLeave` keeps the room-key list duplicate-free. -/
theorem outerNodup_presenceLeave (a : ActiveUsers) (r u : String)
    (h : (keysOf a).Nodup) : (keysOf (presenceLeave a r u)).Nodup := by
  unfold presenceLeave
  by_cases hin : (assocGet ((assocGet a r).getD []) u).isSome
  · rw [if_pos hin]
    by_cases hemp : assocDel ((assocGet a r).getD []) u = []
    · rw [if_pos hemp]
      exact List.Nodup.sublist (keysOf_del_sublist _ _) h
    · rw [if_neg hemp]
      exact nodup_keysOf_set _ _ _ h
  · rw [if_neg hin]
    exact h

/-- A fresh connection preserves the invariant: the new socket is
unbound and its id is unused. -/
theorem stateInv_connect (st : ServerState) (sid : Nat) (hI : stateInv st)
    (hfind : findSocket st sid = none) : stateInv (step st (.connect sid)).1 := by
  obtain ⟨⟨dir1, dir2⟩, ⟨hnodup, hne, huniq⟩, houter⟩ := hI
  have hfresh : ∀ s ∈ st.sockets, s.sid ≠ sid := findBySid_none _ _ hfind
  simp only [step, hfind]
  refine ⟨⟨?_, ?_⟩, ⟨?_, ?_, ?_⟩, houter⟩
  · intro p hp q hq
    obtain ⟨s, hs, hb⟩ := dir1 p hp q hq
    exact ⟨s, List.mem_append_left _ hs, hb⟩
  · intro s hs
    rcases List.mem_append.mp hs with hs | hs
    · exact dir2 s hs
    · rw [List.mem_singleton] at hs
      rw [hs]
      rfl
  · rw [List.map_append]
    refine List.nodup_append.mpr ⟨hnodup, by simp, ?_⟩
    intro x hx hx2
    simp only [List.map_cons, List.map_nil, List.mem_singleton] at hx2
    obtain ⟨s, hs, hss⟩ := List.mem_map.mp hx
    exact hfresh s hs (by rw [← hss] at hx2; exact hx2)
  · intro s hs
    rcases List.mem_append.mp hs with hs | hs
    · exact hne s hs
    · rw [List.mem_singleton] at hs
      rw [hs]
      exact ⟨by simp, by simp⟩
  · intro s1 hs1 s2 hs2 hu1 hu12
    rcases List.mem_append.mp hs1 with hs1 | hs1 <;>
      rcases List.mem_append.mp hs2 with hs2 | hs2
    · exact huniq s1 hs1 s2 hs2 hu1 hu12
    · rw [List.mem_singleton] at hs2
      rw [hs2] at hu12
      exact absurd hu12 hu1
    · rw [List.mem_singleton] at hs1
      rw [hs1] at hu1
      exact absurd rfl hu1
    · rw [List.mem_singleton] at hs1 hs2
      rw [hs1, hs2]

/-- A successful, guarded `joinRoom` preserves the invariant: the
joining connection was fresh-or-rebinding-the-same-room, its username is
non-empty and unused by any other connection. -/
theorem stateInv_join (st : ServerState) (sid : Nat) (u r : String) (fo : Bool)
    (hI : stateInv st) (s0 : Socket)
    (hfind : findSocket st sid = some s0)
    (hu0 : u ≠ "") (hr0 : r ≠ "")
    (hroom : s0.currentRoom = none ∨ s0.currentRoom = some r)
    (husr : s0.username = none ∨ s0.username = some u)
    (hall : ∀ s ∈ st.sockets, s.sid = sid ∨ s.username ≠ some u) :
    stateInv (step st (.joinRoom sid u r true fo)).1 := by
  obtain ⟨⟨dir1, dir2⟩, ⟨hnodup, hne, huniq⟩, houter⟩ := hI
  obtain ⟨hs0mem, hs0sid⟩ := findBySid_some _ _ _ hfind
  have hstate : (step st (.joinRoom sid u r true fo)).1 =
      { activeUsers := presenceJoin st.activeUsers r u sid,
        sockets := st.sockets.map (fun x => if x.sid = sid then
          { x with username := some u, currentRoom := some r,
                   joined := if x.joined.contains r then x.joined else x.joined ++ [r] }
          else x),
        users := upsertUser st.users u sid,
        messages := st.messages } := by
    cases fo <;> simp [step, handleJoinRoom, hfind, updateSocket]
  rw [hstate]
  set G : Socket → Socket := fun x => if x.sid = sid then
      { x with username := some u, currentRoom := some r,
               joined := if x.joined.contains r then x.joined else x.joined ++ [r] }
      else x with hG
  have hGpre : ∀ x, (G x).sid = x.sid := by
    intro x
    rw [hG]
    by_cases hx : x.sid = sid <;> simp [hx]
  have hGusr : ∀ x, x.sid = sid → (G x).username = some u := by
    intro x hx
    rw [hG]
    simp [hx]
  have hGroom : ∀ x, x.sid = sid → (G x).currentRoom = some r := by
    intro x hx
    rw [hG]
    simp [hx]
  have hGother : ∀ x, ¬ x.sid = sid → G x = x := by
    intro x hx
    rw [hG]
    simp [hx]
  have heqs0 : ∀ x ∈ st.sockets, x.sid = sid → x = s0 := by
    intro x hx hxs
    exact eq_of_mem_same_sid st.sockets hnodup x s0 hx hs0mem (by rw [hxs, hs0sid])
  have husr_q : ∀ v : String, s0.username = some v → v = u := by
    intro v hv
    rcases husr with h' | h'
    · rw [h'] at hv
      exact absurd hv (by simp)
    · rw [h'] at hv
      exact (Option.some.inj hv).symm
  have hroom_q : ∀ v : String, s0.currentRoom = some v → v = r := by
    intro v hv
    rcases hroom with h' | h'
    · rw [h'] at hv
      exact absurd hv (by simp)
    · rw [h'] at hv
      exact (Option.some.inj hv).symm
  refine ⟨⟨?_, ?_⟩, ⟨?_, ?_, ?_⟩, ?_⟩
  · intro p hp q hq
    rcases mem_presenceJoin _ _ _ _ _ hp with ⟨hpr, hmem⟩ | hpa
    · rcases hmem q hq with hq' | hq'
      · refine ⟨G s0, List.mem_map_of_mem _ hs0mem, ?_, ?_⟩
        · rw [hGusr s0 hs0sid, hq']
        · rw [hGroom s0 hs0sid, hpr]
      · cases hget : assocGet st.activeUsers r with
        | none =>
          rw [hget] at hq'
          exact absurd hq' (List.not_mem_nil q)
        | some inner =>
          rw [hget] at hq'
          simp only [Option.getD_some] at hq'
          obtain ⟨s1, hs1, hb1, hb2⟩ := dir1 (r, inner) (assocGet_mem _ _ _ hget) q hq'
          by_cases hsid1 : s1.sid = sid
          · have hs1s0 : s1 = s0 := heqs0 s1 hs1 hsid1
            rw [hs1s0] at hb1
            have hq1u : q.1 = u := husr_q q.1 hb1
            refine ⟨G s0, List.mem_map_of_mem _ hs0mem, ?_, ?_⟩
            · rw [hGusr s0 hs0sid, hq1u]
            · rw [hGroom s0 hs0sid, hpr]
          · refine ⟨G s1, List.mem_map_of_mem _ hs1, ?_, ?_⟩
            · rw [hGother s1 hsid1]
              exact hb1
            · rw [hGother s1 hsid1, hb2, hpr]
    · obtain ⟨s1, hs1, hb1, hb2⟩ := dir1 p hpa q hq
      by_cases hsid1 : s1.sid = sid
      · have hs1s0 : s1 = s0 := heqs0 s1 hs1 hsid1
        rw [hs1s0] at hb1 hb2
        have hq1u : q.1 = u := husr_q q.1 hb1
        have hp1r : p.1 = r := hroom_q p.1 hb2
        refine ⟨G s0, List.mem_map_of_mem _ hs0mem, ?_, ?_⟩
        · rw [hGusr s0 hs0sid, hq1u]
        · rw [hGroom s0 hs0sid, hp1r]
      · refine ⟨G s1, List.mem_map_of_mem _ hs1, ?_, ?_⟩
        · rw [hGother s1 hsid1]
          exact hb1
        · rw [hGother s1 hsid1]
          exact hb2
  · intro s' hs'
    obtain ⟨x, hx, hGx⟩ := List.mem_map.mp hs'
    by_cases hxsid : x.sid = sid
    · rw [← hGx]
      simp only [socketPresenceOk, hGusr x hxsid, hGroom x hxsid, decide_eq_true_eq]
      exact roomUsers_join_self _ _ _ _
    · rw [← hGx, hGother x hxsid]
      cases hxu : x.username with
      | none => simp [socketPresenceOk, hxu]
      | some uu =>
        cases hxr : x.currentRoom with
        | none => simp [socketPresenceOk, hxu, hxr]
        | some rr =>
          have hold := dir2 x hx
          simp only [socketPresenceOk, hxu, hxr, decide_eq_true_eq] at hold ⊢
          by_cases hrr : rr = r
          · subst hrr
            exact (mem_roomUsers_join _ _ _ _ _).mpr (Or.inl hold)
          · rw [roomUsers_join_ne _ _ _ _ _ hrr]
            exact hold
  · rw [map_sid_of_preserve _ _ hGpre]
    exact hnodup
  · intro s' hs'
    obtain ⟨x, hx, hGx⟩ := List.mem_map.mp hs'
    by_cases hxsid : x.sid = sid
    · constructor
      · rw [← hGx, hGusr x hxsid]
        simp [hu0]
      · rw [← hGx, hGroom x hxsid]
        simp [hr0]
    · rw [← hGx, hGother x hxsid]
      exact hne x hx
  · intro s1' hs1' s2' hs2' hu1 hu12
    obtain ⟨x1, hx1, e1⟩ := List.mem_map.mp hs1'
    obtain ⟨x2, hx2, e2⟩ := List.mem_map.mp hs2'
    by_cases h1 : x1.sid = sid <;> by_cases h2 : x2.sid = sid
    · rw [← e1, ← e2, hGpre x1, hGpre x2, h1, h2]
    · exfalso
      rw [← e1, ← e2, hGusr x1 h1, hGother x2 h2] at hu12
      rcases hall x2 hx2 with hc | hc
      · exact h2 hc
      · exact hc hu12.symm
    · exfalso
      rw [← e1, ← e2, hGother x1 h1, hGusr x2 h2] at hu12
      rcases hall x1 hx1 with hc | hc
      · exact h1 hc
      · exact hc hu12
    · rw [← e1, ← e2, hGpre x1, hGpre x2]
      rw [← e1, hGother x1 h1] at hu1
      rw [← e1, ← e2, hGother x1 h1, hGother x2 h2] at hu12
      exact huniq x1 hx1 x2 hx2 hu1 hu12
  · exact outerNodup_presenceJoin _ _ _ _ houter

/-- A disconnect whose offline persistence write succeeds preserves the
invariant: either the socket was unbound (plain close) or its presence
entry is removed together with the socket. -/
theorem stateInv_disconnect (st : ServerState) (sid : Nat)
    (hI : stateInv st) : stateInv (step st (.disconnect sid true)).1 := by
  obtain ⟨⟨dir1, dir2⟩, ⟨hnodup, hne, huniq⟩, houter⟩ := hI
  cases hfind : findSocket st sid with
  | none =>
    simp only [step, handleDisconnect, hfind]
    exact ⟨⟨dir1, dir2⟩, ⟨hnodup, hne, huniq⟩, houter⟩
  | some s0 =>
    obtain ⟨hs0mem, hs0sid⟩ := findBySid_some _ _ _ hfind
    have heqs0 : ∀ x ∈ st.sockets, x.sid = sid → x = s0 := by
      intro x hx hxs
      exact eq_of_mem_same_sid st.sockets hnodup x s0 hx hs0mem (by rw [hxs, hs0sid])
    have hmemf : ∀ x : Socket, x ∈ st.sockets.filter (fun y => y.sid ≠ sid) →
        x ∈ st.sockets ∧ x.sid ≠ sid := by
      intro x hx
      rw [List.mem_filter] at hx
      exact ⟨hx.1, by simpa using hx.2⟩
    have hmemf2 : ∀ x ∈ st.sockets, x.sid ≠ sid →
        x ∈ st.sockets.filter (fun y => y.sid ≠ sid) := by
      intro x hx hxs
      rw [List.mem_filter]
      exact ⟨hx, by simpa using hxs⟩
    have hsub : List.Sublist (st.sockets.filter (fun y => y.sid ≠ sid)) st.sockets :=
      List.filter_sublist _
    have hgoodf : goodSockets (st.sockets.filter (fun y => y.sid ≠ sid)) := by
      refine ⟨?_, ?_, ?_⟩
      · exact List.Nodup.sublist (hsub.map _) hnodup
      · intro s hs
        exact hne s (hmemf s hs).1
      · intro s1 hs1 s2 hs2 hu1 hu12
        exact huniq s1 (hmemf s1 hs1).1 s2 (hmemf s2 hs2).1 hu1 hu12
    by_cases htr : (isTruthy s0.username && isTruthy s0.currentRoom) = true
    · cases husr0 : s0.username with
      | none =>
        rw [husr0] at htr
        simp [isTruthy] at htr
      | some u0 =>
        cases hrm0 : s0.currentRoom with
        | none =>
          rw [husr0, hrm0] at htr
          simp [isTruthy] at htr
        | some r0 =>
          rw [husr0, hrm0] at htr
          simp only [isTruthy, Bool.and_eq_true, decide_eq_true_eq] at htr
          obtain ⟨hu00, hr00⟩ := htr
          have hstate : (step st (.disconnect sid true)).1 =
              { activeUsers := presenceLeave st.activeUsers r0 u0,
                sockets := st.sockets.filter (fun y => y.sid ≠ sid),
                users := setOffline st.users u0,
                messages := st.messages } := by
            simp [step, handleDisconnect, hfind, husr0, hrm0, isTruthy, hu00, hr00]
          rw [hstate]
          have hmem0 : u0 ∈ roomUsers st.activeUsers r0 := by
            have hd := dir2 s0 hs0mem
            simp only [socketPresenceOk, husr0, hrm0, decide_eq_true_eq] at hd
            exact hd
          refine ⟨⟨?_, ?_⟩, hgoodf, ?_⟩
          · intro p hp q hq
            rcases mem_presenceLeave_nodup _ _ _ houter p hp with ⟨_, _, hnm⟩ | ⟨hpa, hpne⟩ | ⟨hpr, hq2⟩
            · exact absurd hmem0 hnm
            · obtain ⟨s1, hs1, hb1, hb2⟩ := dir1 p hpa q hq
              have hs1sid : s1.sid ≠ sid := by
                intro hcontra
                have hs1s0 : s1 = s0 := heqs0 s1 hs1 hcontra
                rw [hs1s0, hrm0] at hb2
                exact hpne (Option.some.inj hb2).symm
              exact ⟨s1, hmemf2 s1 hs1 hs1sid, hb1, hb2⟩
            · obtain ⟨hqin, hqne⟩ := hq2 q hq
              cases hget : assocGet st.activeUsers r0 with
              | none =>
                rw [hget] at hqin
                exact absurd hqin (List.not_mem_nil q)
              | some inner =>
                rw [hget] at hqin
                simp only [Option.getD_some] at hqin
                obtain ⟨s1, hs1, hb1, hb2⟩ := dir1 (r0, inner) (assocGet_mem _ _ _ hget) q hqin
                have hs1sid : s1.sid ≠ sid := by
                  intro hcontra
                  have hs1s0 : s1 = s0 := heqs0 s1 hs1 hcontra
                  rw [hs1s0, husr0] at hb1
                  exact hqne (Option.some.inj hb1).symm
                refine ⟨s1, hmemf2 s1 hs1 hs1sid, hb1, ?_⟩
                rw [hb2, hpr]
          · intro s' hs'
            obtain ⟨hs'mem, hs'sid⟩ := hmemf s' hs'
            cases hxu : s'.username with
            | none => simp [socketPresenceOk, hxu]
            | some uu =>
              cases hxr : s'.currentRoom with
              | none => simp [socketPresenceOk, hxu, hxr]
              | some rr =>
                have hold := dir2 s' hs'mem
                simp only [socketPresenceOk, hxu, hxr, decide_eq_true_eq] at hold ⊢
                by_cases hrr : rr = r0
                · subst hrr
                  have huu : uu ≠ u0 := by
                    intro hcontra
                    refine hs'sid ?_
                    have := huniq s' hs'mem s0 hs0mem
                        (by rw [hxu]; simp) (by rw [hxu, husr0, hcontra])
                    rw [this, hs0sid]
                  exact (mem_roomUsers_leave _ _ _ _ huu).mpr hold
                · rw [roomUsers_leave_ne _ _ _ _ hrr]
                  exact hold
          · exact outerNodup_presenceLeave _ _ _ houter
    · have hstate : (step st (.disconnect sid true)).1 =
          { st with sockets := st.sockets.filter (fun y => y.sid ≠ sid) } := by
        simp [step, handleDisconnect, hfind, htr]
      rw [hstate]
      refine ⟨⟨?_, ?_⟩, hgoodf, houter⟩
      · intro p hp q hq
        obtain ⟨s1, hs1, hb1, hb2⟩ := dir1 p hp q hq
        have hs1sid : s1.sid ≠ sid := by
          intro hcontra
          have hs1s0 : s1 = s0 := heqs0 s1 hs1 hcontra
          rw [hs1s0] at hb1 hb2
          refine htr ?_
          rw [hb1, hb2]
          simp only [isTruthy, Bool.and_eq_true, decide_eq_true_eq]
          constructor
          · intro hq1
            exact (hne s0 hs0mem).1 (by rw [hb1, hq1])
          · intro hp1
            exact (hne s0 hs0mem).2 (by rw [hb2, hp1])
        exact ⟨s1, hmemf2 s1 hs1 hs1sid, hb1, hb2⟩
      · intro s' hs'
        exact dir2 s' (hmemf s' hs').1

/-- `chatMessage` touches only the persisted messages, never presence or
the registry: the invariant is preserved. -/
theorem stateInv_chat (st : ServerState) (sid : Nat) (room u text : String) (ts : Nat)
    (ok : Bool) (hI : stateInv st) :
    stateInv (step st (.chatMessage sid room u text ts ok)).1 := by
  by_cases htr : jsTrim text = ""
  · simp only [step, handleChatMessage, htr, if_true]
    exact hI
  · cases ok with
    | false =>
      simp only [step, handleChatMessage, if_neg htr, Bool.not_false, if_true]
      exact hI
    | true =>
      simp only [step, handleChatMessage, if_neg htr, Bool.not_true, Bool.false_eq_true,
        if_false]
      exact hI

/-- `typing` touches nothing: the invariant is preserved. -/
theorem stateInv_typing (st : ServerState) (sid : Nat) (room u : String) (b : Bool)
    (hI : stateInv st) : stateInv (step st (.typing sid room u b)).1 := hI

/-- One guarded event preserves the invariant. -/
theorem stateInv_step (st : ServerState) (e : Event) (hI : stateInv st)
    (hok : eventOk st e = true) : stateInv (step st e).1 := by
  cases e with
  | connect sid =>
    simp only [eventOk, Option.isNone_iff_eq_none] at hok
    exact stateInv_connect st sid hI hok
  | joinRoom sid u r uo fo =>
    simp only [eventOk] at hok
    cases hfind : findSocket st sid with
    | none =>
      rw [hfind] at hok
      simp at hok
    | some s0 =>
      rw [hfind] at hok
      simp only [Bool.and_eq_true, Bool.or_eq_true, Bool.not_eq_true', decide_eq_true_eq,
        decide_eq_false_iff_not, List.all_eq_true] at hok
      obtain ⟨⟨⟨⟨⟨huo, hfo⟩, hu0⟩, hr0⟩, ⟨hroom, husr⟩⟩, hall⟩ := hok
      subst huo
      subst hfo
      refine stateInv_join st sid u r true hI s0 hfind hu0 hr0 hroom husr ?_
      intro s hs
      have := hall s hs
      simpa using this
  | chatMessage sid room u text ts ok =>
    exact stateInv_chat st sid room u text ts ok hI
  | typing sid room u b =>
    exact stateInv_typing st sid room u b hI
  | leaveRoom sid u r =>
    simp [eventOk] at hok
  | disconnect sid uo =>
    simp only [eventOk] at hok
    subst hok
    exact stateInv_disconnect st sid hI

/-- The invariant holds of the empty initial state. -/
theorem stateInv_initial : stateInv initialState := by
  refine ⟨⟨?_, ?_⟩, ⟨?_, ?_, ?_⟩, ?_⟩ <;>
    simp [initialState, keysOf]

/-- A guarded run from an invariant state ends in an invariant state. -/
theorem stateInv_okRun (st : ServerState) (evs : List Event) (hI : stateInv st)
    (hok : okRun st evs = true) : stateInv (runEvents st evs) := by
  induction evs generalizing st with
  | nil => exact hI
  | cons e es ih =>
    simp only [okRun, Bool.and_eq_true] at hok
    exact ih _ (stateInv_step st e hI hok.1) hok.2

/-- C10: a second successful `joinRoom` for the same (room, username)
is idempotent on presence membership — setting an existing key of a JS
object keeps `Object.keys` unchanged — and a presence snapshot never
contains duplicate usernames in any state reachable from process
start. -/
theorem C10_join_idempotent (st : ServerState) (sid1 sid2 : Nat) (u r : String)
    (fo1 fo2 : Bool) (s1 s2 : Socket)
    (h1 : findSocket st sid1 = some s1)
    (h2 : findSocket (step st (.joinRoom sid1 u r true fo1)).1 sid2 = some s2) :
    roomUsers ((step (step st (.joinRoom sid1 u r true fo1)).1
        (.joinRoom sid2 u r true fo2)).1).activeUsers r
      = roomUsers ((step st (.joinRoom sid1 u r true fo1)).1).activeUsers r
    ∧ ∀ (evs : List Event) (room : String),
        (roomUsers (runEvents initialState evs).activeUsers room).Nodup := by
  constructor
  · rw [joinRoom_activeUsers _ sid2 u r fo2 s2 h2]
    refine roomUsers_join_of_mem _ _ _ _ ?_
    rw [joinRoom_activeUsers st sid1 u r fo1 s1 h1]
    exact roomUsers_join_self _ _ _ _
  · intro evs room
    unfold roomUsers
    cases hget : assocGet (runEvents initialState evs).activeUsers room with
    | none => simp [keysOf]
    | some inner =>
      simp only [Option.getD_some]
      refine innerNodup_run initialState ?_ evs (room, inner) (assocGet_mem _ _ _ hget)
      intro p hp
      exact absurd hp (List.not_mem_nil p)

/-- Witness for C10: socket 0 joins "r" as "u" twice in a row. -/
theorem C10_join_idempotent_witness :
    roomUsers ((step (step (runEvents initialState [.connect 0])
        (.joinRoom 0 "u" "r" true true)).1 (.joinRoom 0 "u" "r" true true)).1).activeUsers "r"
      = roomUsers ((step (runEvents initialState [.connect 0])
          (.joinRoom 0 "u" "r" true true)).1).activeUsers "r"
    ∧ (roomUsers (runEvents initialState
          [.connect 0, .joinRoom 0 "u" "r" true true]).activeUsers "r").Nodup :=
  ⟨(C10_join_idempotent (runEvents initialState [.connect 0]) 0 0 "u" "r" true true
      ⟨0, none, none, []⟩ ⟨0, some "u", some "r", ["r"]⟩ (by decide) (by decide)).1,
   (C10_join_idempotent (runEvents initialState [.connect 0]) 0 0 "u" "r" true true
      ⟨0, none, none, []⟩ ⟨0, some "u", some "r", ["r"]⟩ (by decide) (by decide)).2
      [.connect 0, .joinRoom 0 "u" "r" true true] "r"⟩

/-- C1 (amended): for every sequence of events in which connections are
fresh, every `joinRoom` succeeds, carries non-empty names, does not
re-bind its connection to a different room or username, and uses a
username no other open connection holds, every disconnect's persistence
write succeeds, and no `leaveRoom` occurs, the presence snapshot of each
room equals exactly the set of usernames of currently-open connections
whose bound room is that room — no ghost entries and no omissions. -/
theorem C1_presence_restricted (evs : List Event)
    (h : okRun initialState evs = true) :
    presenceMatches (runEvents initialState evs) :=
  (stateInv_okRun initialState evs stateInv_initial h).1

/-- Witness for C1 amended: two clients join the same room, then one
disconnects. -/
theorem C1_presence_restricted_witness :
    okRun initialState
        [.connect 0, .joinRoom 0 "a" "r" true true, .connect 1,
         .joinRoom 1 "b" "r" true true, .disconnect 0 true] = true
    ∧ presenceMatches (runEvents initialState
        [.connect 0, .joinRoom 0 "a" "r" true true, .connect 1,
         .joinRoom 1 "b" "r" true true, .disconnect 0 true]) :=
  ⟨by decide, C1_presence_restricted _ (by decide)⟩

end ChatApp

